import Mathlib

/-!
Reference-value API (`main.go`).

A shallow embedding of the record store, the request handlers and the token
middleware of `main.go`, followed by the properties proved about them.

Modelling conventions.

* The package-level slice `referenceValues` is a `List ReferenceValue`; every
  handler takes the slice as it is when the request arrives and returns the
  slice as it is when the handler returns.
* `float64` is Lean's `Float` (IEEE 754 binary64).  The program only copies
  the `Reference` field, it never computes with it.
* `c.BindJSON` is represented by its result: `some v` for a decoded body,
  `none` for a decode error.
* `json.Marshal` and `ioutil.WriteFile` are library calls; `SaveEnv` records
  whether each of them returns an error for the request at hand.
* The disk is a map from path to content, and the content of a file is the
  JSON value its bytes denote.  `json.Marshal`, `json.Unmarshal`,
  `ioutil.WriteFile` and `ioutil.ReadFile` are library calls; they are
  modelled for the persisted format: an array of objects keyed by the struct
  tags `id`, `name`, `reference`, `description`, `image_url`.
* Requests are handled one at a time.
-/

namespace LabValues

/-! ## Data model -/

/-- Record type of the store: the Go struct `ReferenceValue`. -/
structure ReferenceValue where
  ID : String
  Name : String
  Reference : Float
  Description : String
  ImageURL : String

/-- Payload handed to `c.IndentedJSON` / `c.JSON`. -/
inductive Body where
  /-- The map `gin.H{"message": text}`. -/
  | message (text : String)
  /-- A single record. -/
  | value (v : ReferenceValue)
  /-- The whole slice. -/
  | values (vs : List ReferenceValue)

/-- Status code and payload written by a handler. -/
structure Response where
  status : Nat
  body : Body

/-- What a handler leaves behind. -/
structure Outcome where
  /-- The slice `referenceValues` when the handler returns. -/
  referenceValues : List ReferenceValue
  /-- The JSON response the handler wrote, `none` when it returned without writing one. -/
  response : Option Response
  /-- The slice handed to `saveReferenceValues`, `none` when the handler did not call it. -/
  saved : Option (List ReferenceValue)

/-! ## Record store -/

/-- Which of the two library calls of `saveReferenceValues` failed. -/
inductive SaveError where
  | marshal
  | write
deriving DecidableEq

/-- Results of the library calls made by one run of `saveReferenceValues`. -/
structure SaveEnv where
  /-- `json.Marshal(referenceValues)` returns an error. -/
  marshalErr : Bool
  /-- `ioutil.WriteFile(dataFile, data, 0644)` returns an error. -/
  writeErr : Bool
deriving DecidableEq

/-- Go `saveReferenceValues`: marshal, then write; the first error is returned. -/
def saveReferenceValues (env : SaveEnv) : Except SaveError Unit :=
  if env.marshalErr then .error .marshal
  else if env.writeErr then .error .write
  else .ok ()

/-- Go `findReferenceValueByID`: scan the slice from index 0 and return the
element at the first index whose `ID` equals `id`. -/
def findReferenceValueByID (referenceValues : List ReferenceValue) (id : String) :
    Except String ReferenceValue :=
  match referenceValues with
  | [] => .error "value not found"
  | v :: rest => if v.ID = id then .ok v else findReferenceValueByID rest id

/-! ## Request handlers -/

/-- Go `getReferenceValues`. -/
def getReferenceValues (referenceValues : List ReferenceValue) : Outcome :=
  { referenceValues := referenceValues
    response := some ⟨200, .values referenceValues⟩
    saved := none }

/-- Go `getReferenceValueByID`. -/
def getReferenceValueByID (referenceValues : List ReferenceValue) (id : String) : Outcome :=
  match findReferenceValueByID referenceValues id with
  | .error _ =>
    { referenceValues := referenceValues
      response := some ⟨404, .message "Value not found."⟩
      saved := none }
  | .ok value =>
    { referenceValues := referenceValues
      response := some ⟨200, .value value⟩
      saved := none }

/-- Go `createReferenceValue`; `body` is the result of `c.BindJSON(&newValue)`. -/
def createReferenceValue (referenceValues : List ReferenceValue)
    (body : Option ReferenceValue) (env : SaveEnv) : Outcome :=
  match body with
  | none => { referenceValues := referenceValues, response := none, saved := none }
  | some newValue =>
    let referenceValues := referenceValues ++ [newValue]
    match saveReferenceValues env with
    | .error _ =>
      { referenceValues := referenceValues
        response := some ⟨500, .message "Failed to save reference values."⟩
        saved := some referenceValues }
    | .ok _ =>
      { referenceValues := referenceValues
        response := some ⟨201, .value newValue⟩
        saved := some referenceValues }

/-- The four assignments in the loop body of `updateReferenceValue`. -/
def assignFields (v updatedValue : ReferenceValue) : ReferenceValue :=
  { v with
    Name := updatedValue.Name
    Reference := updatedValue.Reference
    Description := updatedValue.Description
    ImageURL := updatedValue.ImageURL }

/-- The loop of `updateReferenceValue` up to the point where it saves: at the
first index whose `ID` equals `id` the four fields are assigned in place and
the loop is left.  Returns the slice after the assignment together with the
element at that index, or `none` when the loop runs to the end. -/
def updateLoop (id : String) (updatedValue : ReferenceValue) :
    List ReferenceValue → Option (List ReferenceValue × ReferenceValue)
  | [] => none
  | v :: rest =>
    if v.ID = id then
      some (assignFields v updatedValue :: rest, assignFields v updatedValue)
    else
      match updateLoop id updatedValue rest with
      | none => none
      | some (rest', hit) => some (v :: rest', hit)

/-- Go `updateReferenceValue`; `id` is `c.Param("id")`, `body` is the result
of `c.BindJSON(&updatedValue)`. -/
def updateReferenceValue (referenceValues : List ReferenceValue) (id : String)
    (body : Option ReferenceValue) (env : SaveEnv) : Outcome :=
  match body with
  | none => { referenceValues := referenceValues, response := none, saved := none }
  | some updatedValue =>
    match updateLoop id updatedValue referenceValues with
    | some (referenceValues', hit) =>
      match saveReferenceValues env with
      | .error _ =>
        { referenceValues := referenceValues'
          response := some ⟨500, .message "Failed to save reference values."⟩
          saved := some referenceValues' }
      | .ok _ =>
        { referenceValues := referenceValues'
          response := some ⟨200, .value hit⟩
          saved := some referenceValues' }
    | none =>
      { referenceValues := referenceValues
        response := some ⟨404, .message "Value not found."⟩
        saved := none }

/-! ## Access control -/

/-- Go `TokenStore`: the map `Tokens` as a list of key/value entries. -/
structure TokenStore where
  Tokens : List (String × Bool)

/-- Keys of the map `Tokens`. -/
def TokenStore.keys (ts : TokenStore) : List String :=
  ts.Tokens.map Prod.fst

/-- Go `isValidToken`: `_, ok := ts.Tokens[token]`, the stored value is ignored. -/
def TokenStore.isValidToken (ts : TokenStore) (token : String) : Bool :=
  (ts.Tokens.lookup token).isSome

/-- What a middleware does with the handler chain. -/
inductive Step where
  /-- It wrote a response and called `c.Abort()`. -/
  | abort (r : Response)
  /-- It called `c.Next()`. -/
  | next

/-- Go `AuthMiddleware`; `token` is `c.GetHeader("Authorization")`, the empty
string when the header is absent. -/
def TokenStore.AuthMiddleware (ts : TokenStore) (token : String) : Step :=
  if !ts.isValidToken token then
    .abort ⟨401, .message "Unauthorized"⟩
  else
    .next

/-- The four routes registered in `main`, with the inputs their handlers read. -/
inductive Route where
  | getValues
  | getValueByID (id : String)
  | postValue (body : Option ReferenceValue)
  | putValue (id : String) (body : Option ReferenceValue)

/-- A request: the `Authorization` header value and the matched route. -/
structure Request where
  authorization : String
  route : Route

/-- The handler registered for each route. -/
def dispatch (referenceValues : List ReferenceValue) (env : SaveEnv) : Route → Outcome
  | .getValues => getReferenceValues referenceValues
  | .getValueByID id => getReferenceValueByID referenceValues id
  | .postValue body => createReferenceValue referenceValues body env
  | .putValue id body => updateReferenceValue referenceValues id body env

/-- Result of running the chain for one request. -/
structure Served where
  /-- Whether the route handler was run. -/
  handlerRan : Bool
  outcome : Outcome

/-- The chain set up in `main`: `router.Use(tokenStore.AuthMiddleware)` in
front of every route handler. -/
def serve (ts : TokenStore) (referenceValues : List ReferenceValue) (env : SaveEnv)
    (req : Request) : Served :=
  match ts.AuthMiddleware req.authorization with
  | .abort r =>
    { handlerRan := false
      outcome := { referenceValues := referenceValues, response := some r, saved := none } }
  | .next =>
    { handlerRan := true
      outcome := dispatch referenceValues env req.route }

/-- The token store built in `main`. -/
def mainTokenStore : TokenStore :=
  { Tokens := [("25111769", true)] }

/-! ## Backing file -/

/-- Modelled from the spec: a JSON document as its value tree.  A number is
held as the `float64` it denotes and a string as its decoded text; the token
syntax of the document is below this model. -/
inductive Json where
  | null
  | bool (b : Bool)
  | num (x : Float)
  | str (s : String)
  | arr (items : List Json)
  | obj (members : List (String × Json))

/-- Go constant `dataFile`. -/
def dataFile : String := "reference_values.json"

/-- Modelled from the spec: the files on disk, path to content; `none` where
there is no file. -/
abbrev Files := String → Option Json

/-- Modelled from the spec: `ioutil.WriteFile`, the file at `path` is
overwritten with `data`, every other file stays. -/
def writeFile (fs : Files) (path : String) (data : Json) : Files :=
  fun q => if q = path then some data else fs q

/-- Modelled from the spec: `ioutil.ReadFile`, the full content of the file
at `path`, `none` when it cannot be read. -/
def readFile (fs : Files) (path : String) : Option Json :=
  fs path

/-- Modelled from the spec: the object `json.Marshal` writes for one record,
one member per field under the key of its struct tag, in field order;
`reference` is a number, the others are strings. -/
def marshalRecord (v : ReferenceValue) : Json :=
  .obj [("id", .str v.ID), ("name", .str v.Name), ("reference", .num v.Reference),
    ("description", .str v.Description), ("image_url", .str v.ImageURL)]

/-- Modelled from the spec: the document `json.Marshal(referenceValues)`
writes, an array with one object per record in slice order. -/
def marshal (referenceValues : List ReferenceValue) : Json :=
  .arr (referenceValues.map marshalRecord)

/-- The zero value of the struct, which a freshly appended slice element holds. -/
def zeroValue : ReferenceValue :=
  { ID := "", Name := "", Reference := 0, Description := "", ImageURL := "" }

/-- Modelled from the spec: decoding a value into a string field; `null`
leaves the field as it is, a value of another kind is a decode error. -/
def decodeString (old : String) : Json → Option String
  | .str s => some s
  | .null => some old
  | _ => none

/-- Modelled from the spec: decoding a value into the `float64` field; `null`
leaves the field as it is, a value of another kind is a decode error. -/
def decodeNumber (old : Float) : Json → Option Float
  | .num x => some x
  | .null => some old
  | _ => none

/-- Modelled from the spec: decoding one object member into the record; the
key selects the field by its struct tag, a key that names no field is skipped. -/
def decodeMember (v : ReferenceValue) (key : String) (value : Json) : Option ReferenceValue :=
  if key = "id" then (decodeString v.ID value).map (fun s => { v with ID := s })
  else if key = "name" then (decodeString v.Name value).map (fun s => { v with Name := s })
  else if key = "reference" then
    (decodeNumber v.Reference value).map (fun x => { v with Reference := x })
  else if key = "description" then
    (decodeString v.Description value).map (fun s => { v with Description := s })
  else if key = "image_url" then
    (decodeString v.ImageURL value).map (fun s => { v with ImageURL := s })
  else some v

/-- Modelled from the spec: decoding the members of an object in document
order into the record `v`. -/
def decodeMembers (v : ReferenceValue) : List (String × Json) → Option ReferenceValue
  | [] => some v
  | (key, value) :: rest =>
    match decodeMember v key value with
    | none => none
    | some v' => decodeMembers v' rest

/-- Modelled from the spec: decoding one array element into a fresh slice
element: an object fills the zero value member by member, `null` leaves the
zero value, a value of another kind is a decode error. -/
def unmarshalRecord : Json → Option ReferenceValue
  | .obj members => decodeMembers zeroValue members
  | .null => some zeroValue
  | _ => none

/-- Modelled from the spec: decoding the elements of an array in order. -/
def unmarshalItems : List Json → Option (List ReferenceValue)
  | [] => some []
  | item :: rest =>
    match unmarshalRecord item with
    | none => none
    | some v =>
      match unmarshalItems rest with
      | none => none
      | some vs => some (v :: vs)

/-- Modelled from the spec: `json.Unmarshal(data, &referenceValues)` for the
empty slice that `main` loads into: an array becomes the slice of its decoded
elements, `null` the empty slice, a document of another kind is a decode error. -/
def unmarshal : Json → Option (List ReferenceValue)
  | .arr items => unmarshalItems items
  | .null => some []
  | _ => none

/-- Which of the two library calls of `loadReferenceValues` failed. -/
inductive LoadError where
  | read
  | decode
deriving DecidableEq

/-- Go `loadReferenceValues`: read `dataFile`, then unmarshal it into the
slice; returns the slice after the call, or the first error. -/
def loadReferenceValues (fs : Files) : Except LoadError (List ReferenceValue) :=
  match readFile fs dataFile with
  | none => .error .read
  | some data =>
    match unmarshal data with
    | none => .error .decode
    | some referenceValues => .ok referenceValues

/-- Go `saveReferenceValues` together with its effect on the disk: marshal
the slice, then write the document to `dataFile`; returns the disk after the
write, or the first error as `saveReferenceValues` does. -/
def saveReferenceValuesTo (env : SaveEnv) (fs : Files)
    (referenceValues : List ReferenceValue) : Except SaveError Files :=
  if env.marshalErr then .error .marshal
  else if env.writeErr then .error .write
  else .ok (writeFile fs dataFile (marshal referenceValues))

/-- A disk without files. -/
def noFiles : Files := fun _ => none

/-! ## Sample data -/

/-- The record of the create example. -/
def gold : ReferenceValue :=
  { ID := "x1", Name := "Gold", Reference := 1900.5, Description := "d", ImageURL := "u" }

/-- The payload of the update example; the body carries no id. -/
def gold2 : ReferenceValue :=
  { ID := "", Name := "Gold2", Reference := 1950.0, Description := "d2", ImageURL := "u2" }

/-- An earlier record that already uses the id `x1`. -/
def silver : ReferenceValue :=
  { ID := "x1", Name := "Silver", Reference := 23.25, Description := "s", ImageURL := "v" }

/-- A record with another id. -/
def copper : ReferenceValue :=
  { ID := "x2", Name := "Copper", Reference := 4.0, Description := "c", ImageURL := "w" }

/-! ## Lemmas about the scan loops -/

theorem find_of_split (pre post : List ReferenceValue) (v : ReferenceValue) (id : String)
    (hpre : ∀ x ∈ pre, x.ID ≠ id) (hv : v.ID = id) :
    findReferenceValueByID (pre ++ v :: post) id = .ok v := by
  induction pre with
  | nil => simp [findReferenceValueByID, hv]
  | cons a pre ih =>
    have ha : a.ID ≠ id := hpre a (List.mem_cons_self a pre)
    have hrest : ∀ x ∈ pre, x.ID ≠ id := fun x hx => hpre x (List.mem_cons_of_mem a hx)
    simp [findReferenceValueByID, ha, ih hrest]

theorem find_of_absent (vals : List ReferenceValue) (id : String)
    (habs : ∀ x ∈ vals, x.ID ≠ id) :
    findReferenceValueByID vals id = .error "value not found" := by
  induction vals with
  | nil => simp [findReferenceValueByID]
  | cons a vals ih =>
    have ha : a.ID ≠ id := habs a (List.mem_cons_self a vals)
    have hrest : ∀ x ∈ vals, x.ID ≠ id := fun x hx => habs x (List.mem_cons_of_mem a hx)
    simp [findReferenceValueByID, ha, ih hrest]

/-- Either no element has the id, or the slice splits at the first element that has it. -/
theorem split_first (vals : List ReferenceValue) (id : String) :
    (∀ x ∈ vals, x.ID ≠ id) ∨
    ∃ pre v post, vals = pre ++ v :: post ∧ (∀ x ∈ pre, x.ID ≠ id) ∧ v.ID = id := by
  induction vals with
  | nil => left; simp
  | cons a vals ih =>
    by_cases ha : a.ID = id
    · right
      exact ⟨[], a, vals, by simp, by simp, ha⟩
    · rcases ih with habs | ⟨pre, v, post, hsplit, hpre, hv⟩
      · left
        intro x hx
        rcases List.mem_cons.mp hx with rfl | hx
        · exact ha
        · exact habs x hx
      · right
        refine ⟨a :: pre, v, post, by simp [hsplit], ?_, hv⟩
        intro x hx
        rcases List.mem_cons.mp hx with rfl | hx
        · exact ha
        · exact hpre x hx

theorem updateLoop_of_split (pre post : List ReferenceValue) (v u : ReferenceValue)
    (id : String) (hpre : ∀ x ∈ pre, x.ID ≠ id) (hv : v.ID = id) :
    updateLoop id u (pre ++ v :: post) =
      some (pre ++ assignFields v u :: post, assignFields v u) := by
  induction pre with
  | nil => simp [updateLoop, hv]
  | cons a pre ih =>
    have ha : a.ID ≠ id := hpre a (List.mem_cons_self a pre)
    have hrest : ∀ x ∈ pre, x.ID ≠ id := fun x hx => hpre x (List.mem_cons_of_mem a hx)
    simp [updateLoop, ha, ih hrest]

theorem updateLoop_of_absent (vals : List ReferenceValue) (u : ReferenceValue) (id : String)
    (habs : ∀ x ∈ vals, x.ID ≠ id) :
    updateLoop id u vals = none := by
  induction vals with
  | nil => simp [updateLoop]
  | cons a vals ih =>
    have ha : a.ID ≠ id := habs a (List.mem_cons_self a vals)
    have hrest : ∀ x ∈ vals, x.ID ≠ id := fun x hx => habs x (List.mem_cons_of_mem a hx)
    simp [updateLoop, ha, ih hrest]

theorem assignFields_ID (v u : ReferenceValue) : (assignFields v u).ID = v.ID := rfl

theorem assignFields_twice (v u : ReferenceValue) :
    assignFields (assignFields v u) u = assignFields v u := rfl

theorem isValidToken_iff (ts : TokenStore) (token : String) :
    ts.isValidToken token = true ↔ token ∈ ts.keys := by
  unfold TokenStore.isValidToken TokenStore.keys
  induction ts.Tokens with
  | nil => simp
  | cons e l ih =>
    obtain ⟨k, b⟩ := e
    by_cases hk : token = k
    · simp [List.lookup, hk]
    · have hk2 : (token == k) = false := by simpa using hk
      simp [List.lookup, hk2, hk, ih]

theorem find_ok_iff_index (vals : List ReferenceValue) (id : String) (v : ReferenceValue) :
    findReferenceValueByID vals id = .ok v ↔
      ∃ n : Nat, vals[n]? = some v ∧ v.ID = id ∧
        ∀ m : Nat, m < n → ∀ w : ReferenceValue, vals[m]? = some w → w.ID ≠ id := by
  induction vals with
  | nil => simp [findReferenceValueByID]
  | cons a vals ih =>
    by_cases ha : a.ID = id
    · constructor
      · intro h
        simp [findReferenceValueByID, ha] at h
        exact ⟨0, by simp [h], by rw [← h]; exact ha, fun m hm => absurd hm (Nat.not_lt_zero m)⟩
      · rintro ⟨n, hn, -, hfirst⟩
        cases n with
        | zero =>
          simp at hn
          simp [findReferenceValueByID, ha, ← hn]
        | succ k => exact absurd ha (hfirst 0 (Nat.succ_pos k) a (by simp))
    · constructor
      · intro h
        simp only [findReferenceValueByID, ha, if_false] at h
        obtain ⟨n, hn, hv, hfirst⟩ := ih.mp h
        refine ⟨n + 1, by simpa using hn, hv, ?_⟩
        intro m hm w hw
        cases m with
        | zero =>
          simp at hw
          rw [← hw]; exact ha
        | succ k => exact hfirst k (Nat.lt_of_succ_lt_succ hm) w (by simpa using hw)
      · rintro ⟨n, hn, hv, hfirst⟩
        cases n with
        | zero =>
          simp at hn
          rw [hn] at ha
          exact absurd hv ha
        | succ k =>
          simp only [findReferenceValueByID, ha, if_false]
          refine ih.mpr ⟨k, by simpa using hn, hv, ?_⟩
          intro m hm w hw
          exact hfirst (m + 1) (Nat.succ_lt_succ hm) w (by simpa using hw)

theorem find_error_iff (vals : List ReferenceValue) (id : String) :
    findReferenceValueByID vals id = .error "value not found" ↔ ∀ x ∈ vals, x.ID ≠ id := by
  constructor
  · intro h
    rcases split_first vals id with habs | ⟨pre, v, post, hsplit, hpre, hv⟩
    · exact habs
    · rw [hsplit, find_of_split pre post v id hpre hv] at h
      cases h
  · exact find_of_absent vals id

theorem assignFields_congr (v p q : ReferenceValue) (h1 : q.Name = p.Name)
    (h2 : q.Reference = p.Reference) (h3 : q.Description = p.Description)
    (h4 : q.ImageURL = p.ImageURL) : assignFields v q = assignFields v p := by
  simp [assignFields, h1, h2, h3, h4]

theorem updateLoop_congr (id : String) (p q : ReferenceValue) (vals : List ReferenceValue)
    (h1 : q.Name = p.Name) (h2 : q.Reference = p.Reference)
    (h3 : q.Description = p.Description) (h4 : q.ImageURL = p.ImageURL) :
    updateLoop id q vals = updateLoop id p vals := by
  induction vals with
  | nil => rfl
  | cons a vals ih => simp [updateLoop, ih, assignFields_congr a p q h1 h2 h3 h4]

/-- Outcome of an update whose id is present, in terms of the split at the first match. -/
theorem update_of_split (pre post : List ReferenceValue) (v p : ReferenceValue)
    (id : String) (env : SaveEnv) (hpre : ∀ x ∈ pre, x.ID ≠ id) (hv : v.ID = id) :
    updateReferenceValue (pre ++ v :: post) id (some p) env =
      match saveReferenceValues env with
      | .error _ =>
        { referenceValues := pre ++ assignFields v p :: post
          response := some ⟨500, .message "Failed to save reference values."⟩
          saved := some (pre ++ assignFields v p :: post) }
      | .ok _ =>
        { referenceValues := pre ++ assignFields v p :: post
          response := some ⟨200, .value (assignFields v p)⟩
          saved := some (pre ++ assignFields v p :: post) } := by
  simp only [updateReferenceValue, updateLoop_of_split pre post v p id hpre hv]

theorem update_of_split_ok (pre post : List ReferenceValue) (v p : ReferenceValue)
    (id : String) (env : SaveEnv) (hpre : ∀ x ∈ pre, x.ID ≠ id) (hv : v.ID = id)
    (hsave : saveReferenceValues env = .ok ()) :
    updateReferenceValue (pre ++ v :: post) id (some p) env =
      { referenceValues := pre ++ assignFields v p :: post
        response := some ⟨200, .value (assignFields v p)⟩
        saved := some (pre ++ assignFields v p :: post) } := by
  rw [update_of_split pre post v p id env hpre hv, hsave]

theorem update_of_split_error (pre post : List ReferenceValue) (v p : ReferenceValue)
    (id : String) (env : SaveEnv) (e : SaveError) (hpre : ∀ x ∈ pre, x.ID ≠ id)
    (hv : v.ID = id) (hfail : saveReferenceValues env = .error e) :
    updateReferenceValue (pre ++ v :: post) id (some p) env =
      { referenceValues := pre ++ assignFields v p :: post
        response := some ⟨500, .message "Failed to save reference values."⟩
        saved := some (pre ++ assignFields v p :: post) } := by
  rw [update_of_split pre post v p id env hpre hv, hfail]

theorem update_of_absent (vals : List ReferenceValue) (p : ReferenceValue)
    (id : String) (env : SaveEnv) (habs : ∀ x ∈ vals, x.ID ≠ id) :
    updateReferenceValue vals id (some p) env =
      { referenceValues := vals
        response := some ⟨404, .message "Value not found."⟩
        saved := none } := by
  simp only [updateReferenceValue, updateLoop_of_absent vals p id habs]

theorem present_split (vals : List ReferenceValue) (id : String) (hex : ∃ x ∈ vals, x.ID = id) :
    ∃ pre v post, vals = pre ++ v :: post ∧ (∀ x ∈ pre, x.ID ≠ id) ∧ v.ID = id := by
  rcases split_first vals id with habs | h
  · obtain ⟨x, hx, hid⟩ := hex
    exact absurd hid (habs x hx)
  · exact h

theorem update_vals_of_split (pre post : List ReferenceValue) (v p : ReferenceValue)
    (id : String) (env : SaveEnv) (hpre : ∀ x ∈ pre, x.ID ≠ id) (hv : v.ID = id) :
    (updateReferenceValue (pre ++ v :: post) id (some p) env).referenceValues =
      pre ++ assignFields v p :: post := by
  rw [update_of_split pre post v p id env hpre hv]
  cases saveReferenceValues env <;> rfl

/-- Replacing the element at the split point leaves every other index as it was. -/
theorem getElem?_split_ne (pre post : List ReferenceValue) (v w : ReferenceValue) (j : Nat)
    (hj : j ≠ pre.length) : (pre ++ w :: post)[j]? = (pre ++ v :: post)[j]? := by
  rcases Nat.lt_or_gt_of_ne hj with hlt | hgt
  · rw [List.getElem?_append_left hlt, List.getElem?_append_left hlt]
  · rw [List.getElem?_append_right (Nat.le_of_lt hgt),
      List.getElem?_append_right (Nat.le_of_lt hgt)]
    obtain ⟨k, hk⟩ : ∃ k, j - pre.length = k + 1 :=
      ⟨j - pre.length - 1, by omega⟩
    rw [hk]
    simp

theorem getElem?_split_at (pre post : List ReferenceValue) (v : ReferenceValue) :
    (pre ++ v :: post)[pre.length]? = some v := by
  rw [List.getElem?_append_right (Nat.le_refl pre.length), Nat.sub_self]
  simp

theorem getElem?_split_lt (pre post : List ReferenceValue) (v w : ReferenceValue) (k : Nat)
    (hk : k < pre.length) (hw : (pre ++ v :: post)[k]? = some w) : w ∈ pre := by
  rw [List.getElem?_append_left hk] at hw
  exact List.getElem?_mem hw

/-- An index that is not the first match is not the split point. -/
theorem not_split_point (pre post : List ReferenceValue) (v x : ReferenceValue) (id : String)
    (j : Nat) (hpre : ∀ y ∈ pre, y.ID ≠ id) (hv : v.ID = id)
    (hx : (pre ++ v :: post)[j]? = some x)
    (hother : x.ID ≠ id ∨
      ∃ k : Nat, k < j ∧ ∃ w : ReferenceValue, (pre ++ v :: post)[k]? = some w ∧ w.ID = id) :
    j ≠ pre.length := by
  intro hj
  subst hj
  rcases hother with hne | ⟨k, hk, w, hw, hwid⟩
  · rw [getElem?_split_at] at hx
    injection hx with hx
    rw [← hx] at hne
    exact hne hv
  · exact hpre w (getElem?_split_lt pre post v w k hk hw) hwid

/-! ## Access control -/

/-- C1: for every token store and every `Authorization` value `h` (the empty
string included), `AuthMiddleware` calls `c.Next()` exactly when `h` is a key
of the token store, and the route handler runs exactly then; for every other
`h` the middleware aborts with 401 and the message "Unauthorized", no handler
runs, nothing is saved and the slice is the one the request found. -/
theorem auth_gate (ts : TokenStore) (h : String) (vals : List ReferenceValue)
    (env : SaveEnv) (route : Route) :
    (ts.AuthMiddleware h = Step.next ↔ h ∈ ts.keys) ∧
    ((serve ts vals env ⟨h, route⟩).handlerRan = true ↔ h ∈ ts.keys) ∧
    (h ∈ ts.keys → serve ts vals env ⟨h, route⟩ = ⟨true, dispatch vals env route⟩) ∧
    (h ∉ ts.keys →
      ts.AuthMiddleware h = Step.abort ⟨401, .message "Unauthorized"⟩ ∧
      serve ts vals env ⟨h, route⟩ =
        ⟨false, { referenceValues := vals
                  response := some ⟨401, .message "Unauthorized"⟩
                  saved := none }⟩) := by
  by_cases hk : h ∈ ts.keys
  · have hv : ts.isValidToken h = true := (isValidToken_iff ts h).mpr hk
    simp [serve, TokenStore.AuthMiddleware, hv, hk]
  · have hv : ts.isValidToken h = false := by
      cases hb : ts.isValidToken h with
      | false => rfl
      | true => exact absurd ((isValidToken_iff ts h).mp hb) hk
    simp [serve, TokenStore.AuthMiddleware, hv, hk]

/-- The store of `main` at an absent header and at its one token. -/
theorem auth_gate_main :
    mainTokenStore.AuthMiddleware "" = Step.abort ⟨401, .message "Unauthorized"⟩ ∧
    mainTokenStore.AuthMiddleware "25111769" = Step.next := by
  constructor <;> rfl

/-! ## Lookup -/

/-- C7: `findReferenceValueByID` returns `v` exactly when `v` stands at the
first index of the slice whose record has id `i`, and returns its error
exactly when no record has id `i`; `getReferenceValueByID` answers 200 with
that record on a hit and 404 with "Value not found." on a miss, saves nothing
and leaves the slice as it was. -/
theorem find_first_match (vals : List ReferenceValue) (i : String) :
    (∀ v : ReferenceValue, findReferenceValueByID vals i = .ok v ↔
      ∃ n : Nat, vals[n]? = some v ∧ v.ID = i ∧
        ∀ m : Nat, m < n → ∀ w : ReferenceValue, vals[m]? = some w → w.ID ≠ i) ∧
    (findReferenceValueByID vals i = .error "value not found" ↔ ∀ x ∈ vals, x.ID ≠ i) ∧
    ((∃ e, findReferenceValueByID vals i = .error e) ↔ ∀ x ∈ vals, x.ID ≠ i) ∧
    (∀ v : ReferenceValue, findReferenceValueByID vals i = .ok v →
      getReferenceValueByID vals i =
        { referenceValues := vals, response := some ⟨200, .value v⟩, saved := none }) ∧
    ((∀ x ∈ vals, x.ID ≠ i) →
      getReferenceValueByID vals i =
        { referenceValues := vals
          response := some ⟨404, .message "Value not found."⟩
          saved := none }) ∧
    (getReferenceValueByID vals i).referenceValues = vals := by
  refine ⟨fun v => find_ok_iff_index vals i v, find_error_iff vals i, ?_, ?_, ?_, ?_⟩
  · constructor
    · rintro ⟨e, he⟩
      rcases split_first vals i with habs | ⟨pre, v, post, hsplit, hpre, hv⟩
      · exact habs
      · rw [hsplit, find_of_split pre post v i hpre hv] at he
        cases he
    · intro habs
      exact ⟨_, find_of_absent vals i habs⟩
  · intro v hv
    simp [getReferenceValueByID, hv]
  · intro habs
    simp [getReferenceValueByID, find_of_absent vals i habs]
  · unfold getReferenceValueByID
    cases findReferenceValueByID vals i <;> rfl

/-! ## Create -/

/-- C8: for every slice and every decoded record `r`, whatever its id,
`createReferenceValue` leaves the slice followed by `r`: the length grows by
one, every earlier index holds what it held, `r` is last, the grown slice is
what is saved, and when the save succeeds the response is 201 with `r`. -/
theorem create_appends (vals : List ReferenceValue) (r : ReferenceValue) (env : SaveEnv) :
    (createReferenceValue vals (some r) env).referenceValues = vals ++ [r] ∧
    (createReferenceValue vals (some r) env).referenceValues.length = vals.length + 1 ∧
    (∀ j : Nat, j < vals.length →
      (createReferenceValue vals (some r) env).referenceValues[j]? = vals[j]?) ∧
    (createReferenceValue vals (some r) env).referenceValues[vals.length]? = some r ∧
    (createReferenceValue vals (some r) env).referenceValues.getLast? = some r ∧
    (createReferenceValue vals (some r) env).saved = some (vals ++ [r]) ∧
    (saveReferenceValues env = .ok () →
      (createReferenceValue vals (some r) env).response = some ⟨201, .value r⟩) := by
  have hvals : (createReferenceValue vals (some r) env).referenceValues = vals ++ [r] := by
    unfold createReferenceValue
    cases saveReferenceValues env <;> rfl
  have hsaved : (createReferenceValue vals (some r) env).saved = some (vals ++ [r]) := by
    unfold createReferenceValue
    cases saveReferenceValues env <;> rfl
  refine ⟨hvals, ?_, ?_, ?_, ?_, hsaved, ?_⟩
  · rw [hvals]; simp
  · intro j hj
    rw [hvals]
    exact List.getElem?_append_left hj
  · rw [hvals]; simp
  · rw [hvals]; simp
  · intro hsave
    simp [createReferenceValue, hsave]

/-- C2 fails as stated: with a record of id "x1" already in the slice, the
create of `gold` succeeds with 201 and the lookup of "x1" afterwards returns
the earlier record, not `gold`. -/
theorem create_lookup_duplicate_id :
    (createReferenceValue [silver] (some gold) ⟨false, false⟩).response =
      some ⟨201, .value gold⟩ ∧
    findReferenceValueByID
      (createReferenceValue [silver] (some gold) ⟨false, false⟩).referenceValues gold.ID =
      .ok silver ∧
    findReferenceValueByID
      (createReferenceValue [silver] (some gold) ⟨false, false⟩).referenceValues gold.ID ≠
      .ok gold := by
  refine ⟨rfl, rfl, ?_⟩
  intro h
  have h2 : (Except.ok silver : Except String ReferenceValue) = Except.ok gold := h
  injection h2 with h3
  have h4 : silver.Name = gold.Name := congrArg ReferenceValue.Name h3
  simp [silver, gold] at h4

/-- C2, amended: when no record of the slice has the id of `r`, after a
successful create of `r` (response 201 with `r`) the lookup of `r.ID` returns
exactly `r`, and `getReferenceValueByID` answers 200 with `r`. -/
theorem create_then_lookup (vals : List ReferenceValue) (r : ReferenceValue) (env : SaveEnv)
    (hfresh : ∀ x ∈ vals, x.ID ≠ r.ID) (hsave : saveReferenceValues env = .ok ()) :
    (createReferenceValue vals (some r) env).response = some ⟨201, .value r⟩ ∧
    findReferenceValueByID (createReferenceValue vals (some r) env).referenceValues r.ID =
      .ok r ∧
    (getReferenceValueByID (createReferenceValue vals (some r) env).referenceValues
      r.ID).response = some ⟨200, .value r⟩ := by
  have hvals : (createReferenceValue vals (some r) env).referenceValues = vals ++ [r] := by
    simp [createReferenceValue, hsave]
  have hfind : findReferenceValueByID (vals ++ [r]) r.ID = .ok r :=
    find_of_split vals [] r r.ID hfresh rfl
  refine ⟨by simp [createReferenceValue, hsave], by rw [hvals]; exact hfind, ?_⟩
  rw [hvals]
  simp [getReferenceValueByID, hfind]

/-- C2 at the example of the specification: POST of `gold` into a slice that
holds `copper`, then GET of "x1". -/
theorem create_then_lookup_gold :
    (∀ x ∈ [copper], x.ID ≠ gold.ID) ∧
    saveReferenceValues ⟨false, false⟩ = .ok () ∧
    findReferenceValueByID
      (createReferenceValue [copper] (some gold) ⟨false, false⟩).referenceValues "x1" =
      .ok gold :=
  ⟨by simp [copper, gold], rfl,
    (create_then_lookup [copper] gold ⟨false, false⟩ (by simp [copper, gold]) rfl).2.1⟩

/-! ## Update -/

/-- C3: when the slice has a record with id `i` and the save succeeds, the
update of `i` with payload `p` answers 200 with a record `v`, the lookup of `i`
afterwards returns that `v`, the id of `v` is `i` and its name, reference,
description and image url are those of `p`; a payload `q` that differs from
`p` only in its id gives the same outcome. -/
theorem update_then_lookup (vals : List ReferenceValue) (i : String) (p : ReferenceValue)
    (env : SaveEnv) (hex : ∃ x ∈ vals, x.ID = i) (hsave : saveReferenceValues env = .ok ()) :
    ∃ v : ReferenceValue,
      (updateReferenceValue vals i (some p) env).response = some ⟨200, .value v⟩ ∧
      findReferenceValueByID (updateReferenceValue vals i (some p) env).referenceValues i =
        .ok v ∧
      (getReferenceValueByID (updateReferenceValue vals i (some p) env).referenceValues
        i).response = some ⟨200, .value v⟩ ∧
      v.ID = i ∧ v.Name = p.Name ∧ v.Reference = p.Reference ∧
      v.Description = p.Description ∧ v.ImageURL = p.ImageURL ∧
      ∀ q : ReferenceValue, q.Name = p.Name → q.Reference = p.Reference →
        q.Description = p.Description → q.ImageURL = p.ImageURL →
        updateReferenceValue vals i (some q) env = updateReferenceValue vals i (some p) env := by
  obtain ⟨pre, v, post, hsplit, hpre, hv⟩ := present_split vals i hex
  have hout := update_of_split pre post v p i env hpre hv
  rw [hsave] at hout
  have hfind : findReferenceValueByID (pre ++ assignFields v p :: post) i =
      .ok (assignFields v p) :=
    find_of_split pre post (assignFields v p) i hpre hv
  refine ⟨assignFields v p, ?_, ?_, ?_, hv, rfl, rfl, rfl, rfl, ?_⟩
  · rw [hsplit, hout]
  · rw [hsplit, hout]; exact hfind
  · rw [hsplit, hout]
    simp [getReferenceValueByID, hfind]
  · intro q h1 h2 h3 h4
    simp only [updateReferenceValue, updateLoop_congr i p q vals h1 h2 h3 h4]

/-- C3 at the example of the specification: PUT of `gold2` on "x1" in a slice
that holds `gold`, then the lookup of "x1". -/
theorem update_then_lookup_gold :
    (∃ x ∈ [gold], x.ID = "x1") ∧
    saveReferenceValues ⟨false, false⟩ = .ok () ∧
    ∃ v : ReferenceValue,
      findReferenceValueByID
        (updateReferenceValue [gold] "x1" (some gold2) ⟨false, false⟩).referenceValues "x1" =
        .ok v ∧
      v.ID = "x1" ∧ v.Name = "Gold2" ∧ v.Reference = 1950.0 ∧
      v.Description = "d2" ∧ v.ImageURL = "u2" := by
  refine ⟨⟨gold, by simp, rfl⟩, rfl, ?_⟩
  obtain ⟨v, -, hfind, -, hid, hn, hr, hd, hu, -⟩ :=
    update_then_lookup [gold] "x1" gold2 ⟨false, false⟩ ⟨gold, by simp, rfl⟩ rfl
  exact ⟨v, hfind, hid, hn, hr, hd, hu⟩

/-- C4: when no record of the slice has id `i`, the update of `i` with any
decoded payload answers 404 with "Value not found.", does not call
`saveReferenceValues`, and leaves the slice as it was. -/
theorem update_unknown_id (vals : List ReferenceValue) (i : String) (p : ReferenceValue)
    (env : SaveEnv) (habs : ∀ x ∈ vals, x.ID ≠ i) :
    updateReferenceValue vals i (some p) env =
      { referenceValues := vals
        response := some ⟨404, .message "Value not found."⟩
        saved := none } :=
  update_of_absent vals p i env habs

/-- C4 at the example of the specification: PUT on "does-not-exist". -/
theorem update_unknown_id_gold :
    (∀ x ∈ [gold, copper], x.ID ≠ "does-not-exist") ∧
    updateReferenceValue [gold, copper] "does-not-exist" (some gold2) ⟨false, false⟩ =
      { referenceValues := [gold, copper]
        response := some ⟨404, .message "Value not found."⟩
        saved := none } :=
  ⟨by simp [gold, copper],
    update_unknown_id [gold, copper] "does-not-exist" gold2 ⟨false, false⟩
      (by simp [gold, copper])⟩

/-- C5: when an update of `i` with payload `p` succeeds (response 200 with a
record `v`), the same update applied to the resulting slice, its save
succeeding as well, leaves the slice as the first update left it and answers
200 with the same `v`: same slice, same response. -/
theorem update_idempotent (vals : List ReferenceValue) (i : String) (p v : ReferenceValue)
    (env env2 : SaveEnv)
    (hok : (updateReferenceValue vals i (some p) env).response = some ⟨200, .value v⟩)
    (hsave2 : saveReferenceValues env2 = .ok ()) :
    (updateReferenceValue (updateReferenceValue vals i (some p) env).referenceValues i
        (some p) env2).referenceValues =
      (updateReferenceValue vals i (some p) env).referenceValues ∧
    (updateReferenceValue (updateReferenceValue vals i (some p) env).referenceValues i
        (some p) env2).response =
      (updateReferenceValue vals i (some p) env).response ∧
    (updateReferenceValue (updateReferenceValue vals i (some p) env).referenceValues i
        (some p) env2).response = some ⟨200, .value v⟩ := by
  rcases split_first vals i with habs | ⟨pre, w, post, hsplit, hpre, hw⟩
  · rw [update_of_absent vals p i env habs] at hok
    simp at hok
  · have hout2 := update_of_split_ok pre post (assignFields w p) p i env2 hpre hw hsave2
    rw [assignFields_twice] at hout2
    rw [hsplit] at hok ⊢
    cases hs : saveReferenceValues env with
    | error e =>
      rw [update_of_split_error pre post w p i env e hpre hw hs] at hok
      simp at hok
    | ok u =>
      have hout := update_of_split_ok pre post w p i env hpre hw hs
      rw [hout] at hok ⊢
      refine ⟨?_, ?_, ?_⟩
      · exact congrArg Outcome.referenceValues hout2
      · exact congrArg Outcome.response hout2
      · exact (congrArg Outcome.response hout2).trans hok

/-- C5 at the example of the specification: PUT of `gold2` on "x1" twice. -/
theorem update_idempotent_gold :
    (updateReferenceValue [copper, gold] "x1" (some gold2) ⟨false, false⟩).response =
      some ⟨200, .value (assignFields gold gold2)⟩ ∧
    saveReferenceValues ⟨false, false⟩ = .ok () ∧
    (updateReferenceValue
        (updateReferenceValue [copper, gold] "x1" (some gold2) ⟨false, false⟩).referenceValues
        "x1" (some gold2) ⟨false, false⟩).referenceValues =
      (updateReferenceValue [copper, gold] "x1" (some gold2) ⟨false, false⟩).referenceValues ∧
    (updateReferenceValue
        (updateReferenceValue [copper, gold] "x1" (some gold2) ⟨false, false⟩).referenceValues
        "x1" (some gold2) ⟨false, false⟩).response =
      (updateReferenceValue [copper, gold] "x1" (some gold2) ⟨false, false⟩).response :=
  ⟨rfl, rfl,
    (update_idempotent [copper, gold] "x1" gold2 (assignFields gold gold2)
      ⟨false, false⟩ ⟨false, false⟩ rfl rfl).1,
    (update_idempotent [copper, gold] "x1" gold2 (assignFields gold gold2)
      ⟨false, false⟩ ⟨false, false⟩ rfl rfl).2.1⟩

/-- The same update run twice gives the same outcome whatever the save does,
as long as it does the same both times. -/
theorem update_twice (vals : List ReferenceValue) (i : String) (body : Option ReferenceValue)
    (env : SaveEnv) :
    updateReferenceValue (updateReferenceValue vals i body env).referenceValues i body env =
      updateReferenceValue vals i body env := by
  cases body with
  | none => rfl
  | some p =>
    rcases split_first vals i with habs | ⟨pre, w, post, hsplit, hpre, hw⟩
    · rw [update_of_absent vals p i env habs]
      exact update_of_absent vals p i env habs
    · rw [hsplit]
      cases hs : saveReferenceValues env with
      | error e =>
        have hout2 := update_of_split_error pre post (assignFields w p) p i env e hpre hw hs
        rw [assignFields_twice] at hout2
        rw [update_of_split_error pre post w p i env e hpre hw hs]
        exact hout2
      | ok u =>
        have hout2 := update_of_split_ok pre post (assignFields w p) p i env hpre hw hs
        rw [assignFields_twice] at hout2
        rw [update_of_split_ok pre post w p i env hpre hw hs]
        exact hout2

/-! ## Save failure -/

/-- C9: when `saveReferenceValues` returns an error, a create answers 500
with "Failed to save reference values." and the slice is the old one followed
by the new record; an update of an id that is present answers 500 with the
same message and the lookup of that id afterwards returns a record with that
id and the four field values of the payload. -/
theorem save_failure_keeps_mutation (vals : List ReferenceValue) (env : SaveEnv)
    (e : SaveError) (hfail : saveReferenceValues env = .error e) :
    (∀ r : ReferenceValue,
      createReferenceValue vals (some r) env =
        { referenceValues := vals ++ [r]
          response := some ⟨500, .message "Failed to save reference values."⟩
          saved := some (vals ++ [r]) }) ∧
    (∀ (i : String) (p : ReferenceValue), (∃ x ∈ vals, x.ID = i) →
      (updateReferenceValue vals i (some p) env).response =
        some ⟨500, .message "Failed to save reference values."⟩ ∧
      ∃ v : ReferenceValue,
        findReferenceValueByID (updateReferenceValue vals i (some p) env).referenceValues i =
          .ok v ∧
        v.ID = i ∧ v.Name = p.Name ∧ v.Reference = p.Reference ∧
        v.Description = p.Description ∧ v.ImageURL = p.ImageURL) := by
  constructor
  · intro r
    simp [createReferenceValue, hfail]
  · intro i p hex
    obtain ⟨pre, v, post, hsplit, hpre, hv⟩ := present_split vals i hex
    have hout := update_of_split pre post v p i env hpre hv
    rw [hfail] at hout
    rw [hsplit, hout]
    exact ⟨rfl, assignFields v p, find_of_split pre post (assignFields v p) i hpre hv,
      hv, rfl, rfl, rfl, rfl⟩

/-- C9 at a failing write: create of `gold`, and update of "x1" with `gold2`. -/
theorem save_failure_keeps_mutation_gold :
    saveReferenceValues ⟨false, true⟩ = .error .write ∧
    createReferenceValue [copper] (some gold) ⟨false, true⟩ =
      { referenceValues := [copper, gold]
        response := some ⟨500, .message "Failed to save reference values."⟩
        saved := some [copper, gold] } ∧
    (updateReferenceValue [gold] "x1" (some gold2) ⟨false, true⟩).response =
      some ⟨500, .message "Failed to save reference values."⟩ :=
  ⟨rfl,
    (save_failure_keeps_mutation [copper] ⟨false, true⟩ .write rfl).1 gold,
    ((save_failure_keeps_mutation [gold] ⟨false, true⟩ .write rfl).2 "x1" gold2
      ⟨gold, by simp, rfl⟩).1⟩

/-! ## Frame of an update -/

/-- C10: for every slice, id `i`, request body and save result, after
`updateReferenceValue` the slice has the same length and the same sequence of
ids; a record that is not the first one with id `i` (its id differs from `i`,
or an earlier index holds a record with id `i`) stands unchanged at its index;
and the record at any index keeps its id, so only name, reference,
description and image url of the first match can differ. -/
theorem update_frame (vals : List ReferenceValue) (i : String)
    (body : Option ReferenceValue) (env : SaveEnv) :
    (updateReferenceValue vals i body env).referenceValues.length = vals.length ∧
    (updateReferenceValue vals i body env).referenceValues.map ReferenceValue.ID =
      vals.map ReferenceValue.ID ∧
    (∀ (j : Nat) (x : ReferenceValue), vals[j]? = some x →
      (x.ID ≠ i ∨
        ∃ k : Nat, k < j ∧ ∃ w : ReferenceValue, vals[k]? = some w ∧ w.ID = i) →
      (updateReferenceValue vals i body env).referenceValues[j]? = some x) ∧
    (∀ (j : Nat) (x : ReferenceValue), vals[j]? = some x →
      ∃ y : ReferenceValue,
        (updateReferenceValue vals i body env).referenceValues[j]? = some y ∧
        y.ID = x.ID) := by
  have hsame : (updateReferenceValue vals i body env).referenceValues = vals →
      (updateReferenceValue vals i body env).referenceValues.length = vals.length ∧
      (updateReferenceValue vals i body env).referenceValues.map ReferenceValue.ID =
        vals.map ReferenceValue.ID ∧
      (∀ (j : Nat) (x : ReferenceValue), vals[j]? = some x →
        (x.ID ≠ i ∨
          ∃ k : Nat, k < j ∧ ∃ w : ReferenceValue, vals[k]? = some w ∧ w.ID = i) →
        (updateReferenceValue vals i body env).referenceValues[j]? = some x) ∧
      (∀ (j : Nat) (x : ReferenceValue), vals[j]? = some x →
        ∃ y : ReferenceValue,
          (updateReferenceValue vals i body env).referenceValues[j]? = some y ∧
          y.ID = x.ID) := by
    intro h
    rw [h]
    exact ⟨rfl, rfl, fun j x hx _ => hx, fun j x hx => ⟨x, hx, rfl⟩⟩
  cases body with
  | none => exact hsame rfl
  | some p =>
    rcases split_first vals i with habs | ⟨pre, v, post, hsplit, hpre, hv⟩
    · exact hsame (by rw [update_of_absent vals p i env habs])
    · subst hsplit
      rw [update_vals_of_split pre post v p i env hpre hv]
      refine ⟨by simp, by simp [assignFields_ID], ?_, ?_⟩
      · intro j x hx hother
        rw [getElem?_split_ne pre post v (assignFields v p) j
          (not_split_point pre post v x i j hpre hv hx hother)]
        exact hx
      · intro j x hx
        by_cases hj : j = pre.length
        · subst hj
          rw [getElem?_split_at] at hx
          injection hx with hx
          exact ⟨assignFields v p, getElem?_split_at pre post (assignFields v p), by
            rw [← hx]; rfl⟩
        · exact ⟨x, by rw [getElem?_split_ne pre post v (assignFields v p) j hj]; exact hx, rfl⟩

/-- C10 on a slice with a duplicate id: the update of "x1" rewrites the first
record with that id and leaves the later one as it was. -/
theorem update_frame_duplicate :
    (updateReferenceValue [copper, silver, gold] "x1" (some gold2)
      ⟨false, false⟩).referenceValues =
      [copper, assignFields silver gold2, gold] := rfl

/-! ## Backing file round trip -/

theorem unmarshalRecord_marshalRecord (v : ReferenceValue) :
    unmarshalRecord (marshalRecord v) = some v := by
  cases v
  simp [unmarshalRecord, marshalRecord, decodeMembers, decodeMember, decodeString,
    decodeNumber, zeroValue]

theorem unmarshalItems_map (vals : List ReferenceValue) :
    unmarshalItems (vals.map marshalRecord) = some vals := by
  induction vals with
  | nil => rfl
  | cons v vals ih => simp [unmarshalItems, unmarshalRecord_marshalRecord, ih]

theorem unmarshal_marshal (vals : List ReferenceValue) :
    unmarshal (marshal vals) = some vals :=
  unmarshalItems_map vals

/-- The save with its disk effect fails exactly as `saveReferenceValues` does
and succeeds exactly when it does. -/
theorem saveReferenceValuesTo_agrees (env : SaveEnv) (fs : Files)
    (vals : List ReferenceValue) :
    (∀ e : SaveError,
      saveReferenceValuesTo env fs vals = .error e ↔ saveReferenceValues env = .error e) ∧
    (saveReferenceValues env = .ok () ↔
      saveReferenceValuesTo env fs vals = .ok (writeFile fs dataFile (marshal vals))) := by
  obtain ⟨m, w⟩ := env
  cases m <;> cases w <;> simp [saveReferenceValuesTo, saveReferenceValues]

/-- C6: for every slice of N records, every disk and every save that returns
without error, the file written is the JSON array of the N objects with keys
`id`, `name`, `reference`, `description`, `image_url` in slice order, and
`loadReferenceValues` on the disk after the save returns the same N records
in the same order. -/
theorem save_load_round_trip (env : SaveEnv) (fs fs' : Files) (vals : List ReferenceValue)
    (hsave : saveReferenceValuesTo env fs vals = .ok fs') :
    readFile fs' dataFile =
      some (.arr (vals.map fun v =>
        .obj [("id", .str v.ID), ("name", .str v.Name), ("reference", .num v.Reference),
          ("description", .str v.Description), ("image_url", .str v.ImageURL)])) ∧
    loadReferenceValues fs' = .ok vals ∧
    (∀ vs : List ReferenceValue, loadReferenceValues fs' = .ok vs →
      vs.length = vals.length ∧ ∀ n : Nat, vs[n]? = vals[n]?) := by
  have hfs : fs' = writeFile fs dataFile (marshal vals) := by
    obtain ⟨m, w⟩ := env
    cases m <;> cases w <;> simp [saveReferenceValuesTo] at hsave
    exact hsave.symm
  have hread : readFile fs' dataFile = some (marshal vals) := by
    rw [hfs]
    simp [readFile, writeFile]
  have hload : loadReferenceValues fs' = .ok vals := by
    simp [loadReferenceValues, hread, unmarshal_marshal]
  refine ⟨hread, hload, ?_⟩
  intro vs hvs
  rw [hload] at hvs
  injection hvs with hvs
  rw [← hvs]
  exact ⟨rfl, fun n => rfl⟩

/-- C6 on a disk without files: save of two records, then load. -/
theorem save_load_round_trip_gold :
    saveReferenceValuesTo ⟨false, false⟩ noFiles [gold, copper] =
      .ok (writeFile noFiles dataFile (marshal [gold, copper])) ∧
    loadReferenceValues (writeFile noFiles dataFile (marshal [gold, copper])) =
      .ok [gold, copper] :=
  ⟨rfl,
    (save_load_round_trip ⟨false, false⟩ noFiles
      (writeFile noFiles dataFile (marshal [gold, copper])) [gold, copper] rfl).2.1⟩

end LabValues
